import Mathlib

/-!
# Verification of the `somprex` prediction-market settlement core

Shallow embedding of `src/smart-contracts/contracts/PredictionMarket.sol`
(the ERC20/SOMI variant, the main contract under `src/`) together with the
points where the native-currency variant (`src/unnamed/part_010`) differs:
`cancelMarket` authorization, `setResolver` zero-address validation, and the
per-bet payout computation inside `claimWinnings`.

Modelling conventions:
* `bytes32` and `address` are modelled as `Nat`; `0` is the zero value used
  as the "absent" sentinel by the contract.
* Solidity 0.8 checked arithmetic never wraps: an overflowing operation
  reverts the transaction.  Amounts are therefore modelled as `Nat`
  (no modular reduction); division by zero and out-of-bounds array access,
  which revert with a panic in Solidity, are modelled as the `Err.Panic`
  error.
* Every external function is a total Lean function
  `... -> State -> Except Err State` (or `Except Err (State × Nat)` when the
  function also pays an amount out).  A `require` failure or a panic is an
  `Except.error`; transaction semantics mean the caller's state is unchanged
  in that case (`applyOp`).
* Token transfers (`safeTransfer` / `safeTransferFrom` / low-level call) move
  value outside the ledger variables modelled here; they are treated as
  succeeding.  All claims under scrutiny concern the ledger bookkeeping.
-/

/-- `enum MarketType { BLOCK, TRANSFER, GAME }` -/
inductive MarketType where
  | BLOCK
  | TRANSFER
  | GAME
deriving DecidableEq

/-- `enum MarketStatus { ACTIVE, LOCKED, RESOLVED, CANCELLED }`
(`ACTIVE` is the zero value, hence the status of a default struct). -/
inductive MarketStatus where
  | ACTIVE
  | LOCKED
  | RESOLVED
  | CANCELLED
deriving DecidableEq

/-- Error outcomes of the external functions, named after the spec's error
taxonomy; each corresponds to a `require` (or modifier) in the source.
`Panic` is a Solidity 0.8 arithmetic/array panic (division by zero,
out-of-bounds index). -/
inductive Err where
  | MarketNotFound
  | MarketNotActive
  | MarketNotResolved
  | MarketNotCancelled
  | InvalidOption
  | BetTooSmall
  | BetTooLarge
  | DuplicateMarket
  | InvalidResolutionTime
  | EmptyQuestion
  | NotAuthorized
  | NotOwner
  | TooEarly
  | NoBetsFound
  | NoWinningsToClaim
  | NoRefundsAvailable
  | NoFeesToWithdraw
  | FeeTooHigh
  | InvalidLimits
  | InvalidResolverAddress
  | Panic
deriving DecidableEq

/-- `struct Market` (ERC20 variant; the native variant lacks the two
threshold fields, which no settlement logic reads). -/
structure Market where
  marketId : Nat
  marketType : MarketType
  question : String
  creator : Nat
  createdAt : Nat
  resolutionTime : Nat
  status : MarketStatus
  winningOption : Nat
  totalPool : Nat
  optionPools : Nat × Nat
  dataSourceId : Nat
  threshold : Nat
  thresholdToken : Nat
deriving DecidableEq

/-- The default value of `markets[id]` for an id that was never written:
every field is the zero value of its type. -/
def emptyMarket : Market :=
  { marketId := 0, marketType := .BLOCK, question := "", creator := 0,
    createdAt := 0, resolutionTime := 0, status := .ACTIVE, winningOption := 0,
    totalPool := 0, optionPools := (0, 0), dataSourceId := 0, threshold := 0,
    thresholdToken := 0 }

/-- `struct Bet` -/
structure Bet where
  bettor : Nat
  marketId : Nat
  option : Nat
  amount : Nat
  timestamp : Nat
  claimed : Bool
deriving DecidableEq

/-- Read `optionPools[o]` (the array has exactly two cells; any in-range
index other than `0` is `1`). -/
def poolOf (p : Nat × Nat) (o : Nat) : Nat :=
  if o = 0 then p.1 else p.2

/-- `market.optionPools[o] += amt` -/
def bumpPool (p : Nat × Nat) (o : Nat) (amt : Nat) : Nat × Nat :=
  if o = 0 then (p.1 + amt, p.2) else (p.1, p.2 + amt)

/-- Pointwise update of a Solidity `mapping`, modelled as a function. -/
def upd {α : Type} (f : Nat → α) (k : Nat) (v : α) : Nat → α :=
  fun k' => if k' = k then v else f k'

/-- Pointwise update of a doubly-keyed `mapping`. -/
def upd2 {α : Type} (f : Nat → Nat → α) (k₁ k₂ : Nat) (v : α) : Nat → Nat → α :=
  fun k₁' k₂' => if k₁' = k₁ ∧ k₂' = k₂ then v else f k₁' k₂'

/-- The contract storage of `PredictionMarket`. -/
structure State where
  markets : Nat → Market
  marketBets : Nat → List Bet
  userBets : Nat → List Nat
  userBetIndices : Nat → Nat → List Nat
  activeMarkets : List Nat
  platformFee : Nat
  minBetAmount : Nat
  maxBetAmount : Nat
  collectedFees : Nat
  authorizedResolvers : Nat → Bool
  owner : Nat

/-- `uint256 public constant BASIS_POINTS = 10000;` -/
def BASIS_POINTS : Nat := 10000

/-- Post-constructor storage: the deployer is the owner and an authorized
resolver; `platformFee = 200`, `minBetAmount = 0.01 ether`,
`maxBetAmount = 100 ether`. -/
def initState (deployer : Nat) : State :=
  { markets := fun _ => emptyMarket
    marketBets := fun _ => []
    userBets := fun _ => []
    userBetIndices := fun _ _ => []
    activeMarkets := []
    platformFee := 200
    minBetAmount := 10000000000000000
    maxBetAmount := 100000000000000000000
    collectedFees := 0
    authorizedResolvers := fun a => a = deployer
    owner := deployer }

/-- `createMarket` (both variants have the same checks and effects on the
fields modelled here).  `sender = msg.sender`, `now = block.timestamp`. -/
def createMarket (sender now mId : Nat) (mty : MarketType) (q : String)
    (rt ds th tht : Nat) (s : State) : Except Err State :=
  if (s.markets mId).marketId ≠ 0 then .error .DuplicateMarket else
  if rt ≤ now then .error .InvalidResolutionTime else
  if q = "" then .error .EmptyQuestion else
  .ok { s with
    markets := upd s.markets mId
      { marketId := mId, marketType := mty, question := q, creator := sender,
        createdAt := now, resolutionTime := rt, status := .ACTIVE,
        winningOption := 0, totalPool := 0, optionPools := (0, 0),
        dataSourceId := ds, threshold := th, thresholdToken := tht }
    activeMarkets := s.activeMarkets ++ [mId] }

/-- `placeBet` (ERC20 variant; the native variant is identical with
`amt = msg.value`). -/
def placeBet (sender now mId opt amt : Nat) (s : State) : Except Err State :=
  let market := s.markets mId
  if market.marketId = 0 then .error .MarketNotFound else
  if market.status ≠ .ACTIVE then .error .MarketNotActive else
  if 1 < opt then .error .InvalidOption else
  if amt < s.minBetAmount then .error .BetTooSmall else
  if s.maxBetAmount < amt then .error .BetTooLarge else
  .ok { s with
    marketBets := upd s.marketBets mId
      (s.marketBets mId ++
        [{ bettor := sender, marketId := mId, option := opt, amount := amt,
           timestamp := now, claimed := false }])
    userBets := upd s.userBets sender (s.userBets sender ++ [mId])
    userBetIndices := upd2 s.userBetIndices mId sender
      (s.userBetIndices mId sender ++ [(s.marketBets mId).length])
    markets := upd s.markets mId
      { market with optionPools := bumpPool market.optionPools opt amt
                    totalPool := market.totalPool + amt } }

/-- `resolveMarket` (`onlyResolver`: authorized resolver or owner). -/
def resolveMarket (sender now mId wOpt : Nat) (s : State) : Except Err State :=
  if ¬ (s.authorizedResolvers sender = true ∨ sender = s.owner) then
    .error .NotAuthorized else
  let market := s.markets mId
  if market.marketId = 0 then .error .MarketNotFound else
  if market.status ≠ .ACTIVE then .error .MarketNotActive else
  if 1 < wOpt then .error .InvalidOption else
  if now < market.resolutionTime then .error .TooEarly else
  .ok { s with
    markets := upd s.markets mId
      { market with status := .RESOLVED, winningOption := wOpt } }

/-- `cancelMarket`, ERC20 variant: gated by the `onlyOwner` modifier, so the
market's creator cannot cancel unless they are the owner. -/
def cancelMarket (sender mId : Nat) (s : State) : Except Err State :=
  if sender ≠ s.owner then .error .NotOwner else
  let market := s.markets mId
  if market.marketId = 0 then .error .MarketNotFound else
  if market.status ≠ .ACTIVE then .error .MarketNotActive else
  .ok { s with
    markets := upd s.markets mId { market with status := .CANCELLED } }

/-- `cancelMarket`, native-currency variant (`part_010`): callable by the
market's creator or the owner; "Not authorized" otherwise. -/
def cancelMarketN (sender mId : Nat) (s : State) : Except Err State :=
  let market := s.markets mId
  if market.marketId = 0 then .error .MarketNotFound else
  if ¬ (sender = market.creator ∨ sender = s.owner) then
    .error .NotAuthorized else
  if market.status ≠ .ACTIVE then .error .MarketNotActive else
  .ok { s with
    markets := upd s.markets mId { market with status := .CANCELLED } }

/-- `share = (bet.amount * losingPool) / winningPool` (ERC20 variant). -/
def shareE (a L W : Nat) : Nat := a * L / W

/-- `fee = (profit * platformFee) / BASIS_POINTS` (both variants). -/
def feeOf (profit f : Nat) : Nat := profit * f / BASIS_POINTS

/-- Per-bet payout of the ERC20 variant:
`payout = bet.amount + profit - fee` with `profit = share`. -/
def payoutE (a L W f : Nat) : Nat :=
  a + shareE a L W - feeOf (shareE a L W) f

/-- `grossWinnings = (bet.amount * market.totalPool) / winningPool`
(native variant). -/
def grossN (a T W : Nat) : Nat := a * T / W

/-- `profit = grossWinnings > bet.amount ? grossWinnings - bet.amount : 0`
(native variant). -/
def profitN (a T W : Nat) : Nat :=
  if grossN a T W > a then grossN a T W - a else 0

/-- Per-bet payout of the native variant: `payout = grossWinnings - fee`. -/
def payoutN (a T W f : Nat) : Nat :=
  grossN a T W - feeOf (profitN a T W) f

/-- The claim loop of the ERC20 `claimWinnings`: walk the caller's bet
indices, and for each not-yet-claimed bet on the winning option mark it
claimed and accumulate `payout` and `fee`.  A division by zero or an
out-of-bounds index is a Solidity panic (`Err.Panic`). -/
def claimLoopE (wOpt W L f : Nat) :
    List Nat → List Bet → Nat → Nat → Except Err (List Bet × Nat × Nat)
  | [], bets, tw, tf => .ok (bets, tw, tf)
  | i :: is, bets, tw, tf =>
    match bets[i]? with
    | none => .error .Panic
    | some b =>
      if ¬ b.claimed ∧ b.option = wOpt then
        if W = 0 then .error .Panic
        else
          claimLoopE wOpt W L f is (bets.set i { b with claimed := true })
            (tw + payoutE b.amount L W f) (tf + feeOf (shareE b.amount L W) f)
      else claimLoopE wOpt W L f is bets tw tf

/-- `claimWinnings` (ERC20 variant).  Returns the updated storage and the
amount transferred to the caller. -/
def claimWinnings (sender mId : Nat) (s : State) : Except Err (State × Nat) :=
  let market := s.markets mId
  if market.marketId = 0 then .error .MarketNotFound else
  if market.status ≠ .RESOLVED then .error .MarketNotResolved else
  let betIndices := s.userBetIndices mId sender
  if betIndices = [] then .error .NoBetsFound else
  let winningPool := poolOf market.optionPools market.winningOption
  let losingPool := poolOf market.optionPools
    (if market.winningOption = 0 then 1 else 0)
  match claimLoopE market.winningOption winningPool losingPool s.platformFee
      betIndices (s.marketBets mId) 0 0 with
  | .error e => .error e
  | .ok (bets', tw, tf) =>
    if tw = 0 then .error .NoWinningsToClaim else
    .ok ({ s with marketBets := upd s.marketBets mId bets'
                  collectedFees := s.collectedFees + tf }, tw)

/-- The claim loop of the native `claimWinnings`: same traversal, but the
bet is marked claimed before the `winningPool > 0` guard, and the payout is
computed from `totalPool` via `grossN`/`profitN`. -/
def claimLoopN (wOpt W T f : Nat) :
    List Nat → List Bet → Nat → Nat → Except Err (List Bet × Nat × Nat)
  | [], bets, tw, tf => .ok (bets, tw, tf)
  | i :: is, bets, tw, tf =>
    match bets[i]? with
    | none => .error .Panic
    | some b =>
      if ¬ b.claimed ∧ b.option = wOpt then
        let bets₁ := bets.set i { b with claimed := true }
        if 0 < W then
          claimLoopN wOpt W T f is bets₁
            (tw + payoutN b.amount T W f) (tf + feeOf (profitN b.amount T W) f)
        else claimLoopN wOpt W T f is bets₁ tw tf
      else claimLoopN wOpt W T f is bets tw tf

/-- `claimWinnings`, native-currency variant: no explicit existence check
(a never-created market has the default status `ACTIVE`, hence fails the
`RESOLVED` check), and the division is guarded by `winningPool > 0`. -/
def claimWinningsN (sender mId : Nat) (s : State) : Except Err (State × Nat) :=
  let market := s.markets mId
  if market.status ≠ .RESOLVED then .error .MarketNotResolved else
  let betIndices := s.userBetIndices mId sender
  if betIndices = [] then .error .NoBetsFound else
  let winningPool := poolOf market.optionPools market.winningOption
  match claimLoopN market.winningOption winningPool market.totalPool
      s.platformFee betIndices (s.marketBets mId) 0 0 with
  | .error e => .error e
  | .ok (bets', tw, tf) =>
    if tw = 0 then .error .NoWinningsToClaim else
    .ok ({ s with marketBets := upd s.marketBets mId bets'
                  collectedFees := s.collectedFees + tf }, tw)

/-- The refund loop of `refundBets`: refund the full amount of every bet of
the caller not yet claimed, marking each claimed. -/
def refundLoopE :
    List Nat → List Bet → Nat → Except Err (List Bet × Nat)
  | [], bets, tr => .ok (bets, tr)
  | i :: is, bets, tr =>
    match bets[i]? with
    | none => .error .Panic
    | some b =>
      if ¬ b.claimed then
        refundLoopE is (bets.set i { b with claimed := true }) (tr + b.amount)
      else refundLoopE is bets tr

/-- `refundBets` (ERC20 variant). -/
def refundBets (sender mId : Nat) (s : State) : Except Err (State × Nat) :=
  let market := s.markets mId
  if market.marketId = 0 then .error .MarketNotFound else
  if market.status ≠ .CANCELLED then .error .MarketNotCancelled else
  let betIndices := s.userBetIndices mId sender
  if betIndices = [] then .error .NoBetsFound else
  match refundLoopE betIndices (s.marketBets mId) 0 with
  | .error e => .error e
  | .ok (bets', tr) =>
    if tr = 0 then .error .NoRefundsAvailable else
    .ok ({ s with marketBets := upd s.marketBets mId bets' }, tr)

/-- `withdrawFees` (`onlyOwner`). -/
def withdrawFees (sender : Nat) (s : State) : Except Err State :=
  if sender ≠ s.owner then .error .NotOwner else
  if s.collectedFees = 0 then .error .NoFeesToWithdraw else
  .ok { s with collectedFees := 0 }

/-- `setPlatformFee` (`onlyOwner`, at most 1000 basis points). -/
def setPlatformFee (sender fee : Nat) (s : State) : Except Err State :=
  if sender ≠ s.owner then .error .NotOwner else
  if 1000 < fee then .error .FeeTooHigh else
  .ok { s with platformFee := fee }

/-- `setBetLimits` (`onlyOwner`, requires `min < max`). -/
def setBetLimits (sender mn mx : Nat) (s : State) : Except Err State :=
  if sender ≠ s.owner then .error .NotOwner else
  if ¬ mn < mx then .error .InvalidLimits else
  .ok { s with minBetAmount := mn, maxBetAmount := mx }

/-- `setResolver`, ERC20 variant: `onlyOwner`, and — unlike the native
variant — with no zero-address validation. -/
def setResolver (sender addr : Nat) (b : Bool) (s : State) : Except Err State :=
  if sender ≠ s.owner then .error .NotOwner else
  .ok { s with authorizedResolvers := upd s.authorizedResolvers addr b }

/-- `setResolver`, native-currency variant: rejects the zero address with
"Invalid resolver address". -/
def setResolverN (sender addr : Nat) (b : Bool) (s : State) : Except Err State :=
  if sender ≠ s.owner then .error .NotOwner else
  if addr = 0 then .error .InvalidResolverAddress else
  .ok { s with authorizedResolvers := upd s.authorizedResolvers addr b }

/-- `getOdds` (ERC20 variant): `(2.0x, 2.0x)` when the total pool is empty,
otherwise `totalPool * BASIS_POINTS / optionPools[i]` per side, with `0`
for a side whose own pool is empty. -/
def getOdds (mId : Nat) (s : State) : Nat × Nat :=
  let market := s.markets mId
  if market.totalPool = 0 then (2 * BASIS_POINTS, 2 * BASIS_POINTS) else
  (if 0 < market.optionPools.1 then
     market.totalPool * BASIS_POINTS / market.optionPools.1 else 0,
   if 0 < market.optionPools.2 then
     market.totalPool * BASIS_POINTS / market.optionPools.2 else 0)

/-- One external transaction against the ERC20 contract. -/
inductive Op where
  | createMarket (sender now mId : Nat) (mty : MarketType) (q : String)
      (rt ds th tht : Nat)
  | placeBet (sender now mId opt amt : Nat)
  | resolveMarket (sender now mId wOpt : Nat)
  | cancelMarket (sender mId : Nat)
  | claimWinnings (sender mId : Nat)
  | refundBets (sender mId : Nat)
  | withdrawFees (sender : Nat)
  | setPlatformFee (sender fee : Nat)
  | setBetLimits (sender mn mx : Nat)
  | setResolver (sender addr : Nat) (b : Bool)

/-- Execute a transaction, returning the new storage or the revert reason. -/
def exec : Op → State → Except Err State
  | .createMarket sender now mId mty q rt ds th tht, s =>
      createMarket sender now mId mty q rt ds th tht s
  | .placeBet sender now mId opt amt, s => placeBet sender now mId opt amt s
  | .resolveMarket sender now mId wOpt, s => resolveMarket sender now mId wOpt s
  | .cancelMarket sender mId, s => cancelMarket sender mId s
  | .claimWinnings sender mId, s => (claimWinnings sender mId s).map Prod.fst
  | .refundBets sender mId, s => (refundBets sender mId s).map Prod.fst
  | .withdrawFees sender, s => withdrawFees sender s
  | .setPlatformFee sender fee, s => setPlatformFee sender fee s
  | .setBetLimits sender mn mx, s => setBetLimits sender mn mx s
  | .setResolver sender addr b, s => setResolver sender addr b s

/-- Transaction semantics: a reverted transaction leaves storage unchanged. -/
def applyOp (op : Op) (s : State) : State :=
  match exec op s with
  | .ok s' => s'
  | .error _ => s

/-- Run a sequence of transactions. -/
def execList (ops : List Op) (s : State) : State :=
  ops.foldl (fun t op => applyOp op t) s

/-- A storage state reachable from deployment by some transaction
sequence. -/
def Reachable (s : State) : Prop :=
  ∃ deployer ops, s = execList ops (initState deployer)

/-- `some e` iff the call reverted with `e`. -/
def errOf {α : Type} : Except Err α → Option Err
  | .error e => some e
  | .ok _ => none

/-- The state resulting from a call, or `dflt` if the call reverted. -/
def stateOf (r : Except Err State) (dflt : State) : State :=
  match r with
  | .ok s' => s'
  | .error _ => dflt

/-! ## Basic lemmas about mapping updates and bet sums -/

@[simp] theorem upd_same {α : Type} (f : Nat → α) (k : Nat) (v : α) :
    upd f k v k = v := by simp [upd]

theorem upd_ne {α : Type} (f : Nat → α) (k : Nat) (v : α) {m : Nat}
    (h : m ≠ k) : upd f k v m = f m := by simp [upd, h]

theorem upd_apply {α : Type} (f : Nat → α) (k : Nat) (v : α) (m : Nat) :
    upd f k v m = if m = k then v else f m := rfl

theorem upd2_apply {α : Type} (f : Nat → Nat → α) (k₁ k₂ : Nat) (v : α)
    (m a : Nat) :
    upd2 f k₁ k₂ v m a = if m = k₁ ∧ a = k₂ then v else f m a := rfl

/-- Sum of the amounts of the bets on option `o` in a bet list; this is
what `optionPools[o]` tracks. -/
def sumOption (o : Nat) : List Bet → Nat
  | [] => 0
  | b :: bs => (if b.option = o then b.amount else 0) + sumOption o bs

theorem sumOption_append (o : Nat) (l₁ l₂ : List Bet) :
    sumOption o (l₁ ++ l₂) = sumOption o l₁ + sumOption o l₂ := by
  induction l₁ with
  | nil => simp [sumOption]
  | cons b bs ih => simp [sumOption, ih, Nat.add_assoc]

theorem sumOption_ge_of_mem {o : Nat} {b : Bet} {l : List Bet}
    (hb : b ∈ l) (ho : b.option = o) : b.amount ≤ sumOption o l := by
  induction l with
  | nil => cases hb
  | cons c cs ih =>
    rcases List.mem_cons.mp hb with rfl | h
    · simp [sumOption, ho]
    · have := ih h
      simp [sumOption]; omega

/-! ## The claim/refund loops only flip `claimed` flags

`BetRel b b'` says `b'` is `b` with possibly its `claimed` flag turned on;
the loops relate the input and output bet lists pointwise by `BetRel`. -/

/-- A bet after a claim/refund loop: unchanged, or marked claimed. -/
def BetRel (b b' : Bet) : Prop :=
  b' = b ∨ b' = { b with claimed := true }

/-- Pointwise `BetRel` between the bet list before and after a loop. -/
def ClaimedOnly (l l' : List Bet) : Prop := List.Forall₂ BetRel l l'

theorem betRel_refl (b : Bet) : BetRel b b := Or.inl rfl

theorem betRel_trans {a b c : Bet} (h₁ : BetRel a b) (h₂ : BetRel b c) :
    BetRel a c := by
  rcases h₁ with rfl | rfl
  · exact h₂
  · rcases h₂ with rfl | rfl
    · exact Or.inr rfl
    · exact Or.inr rfl

theorem BetRel.option_eq {b b' : Bet} (h : BetRel b b') :
    b'.option = b.option := by rcases h with rfl | rfl <;> rfl

theorem BetRel.amount_eq {b b' : Bet} (h : BetRel b b') :
    b'.amount = b.amount := by rcases h with rfl | rfl <;> rfl

theorem BetRel.claimed_mono {b b' : Bet} (h : BetRel b b')
    (hc : b.claimed = true) : b'.claimed = true := by
  rcases h with rfl | rfl <;> simp [hc]

theorem claimedOnly_refl (l : List Bet) : ClaimedOnly l l := by
  induction l with
  | nil => exact List.Forall₂.nil
  | cons b bs ih => exact List.Forall₂.cons (betRel_refl b) ih

theorem claimedOnly_trans {l₁ l₂ l₃ : List Bet}
    (h₁ : ClaimedOnly l₁ l₂) (h₂ : ClaimedOnly l₂ l₃) : ClaimedOnly l₁ l₃ := by
  induction h₁ generalizing l₃ with
  | nil => cases h₂; exact List.Forall₂.nil
  | cons hab htail ih =>
    cases h₂ with
    | cons hbc h₂tail => exact List.Forall₂.cons (betRel_trans hab hbc) (ih h₂tail)

theorem ClaimedOnly.length_eq {l l' : List Bet} (h : ClaimedOnly l l') :
    l'.length = l.length := (List.Forall₂.length_eq h).symm

theorem claimedOnly_set {l : List Bet} {i : Nat} {b : Bet}
    (hb : l[i]? = some b) :
    ClaimedOnly l (l.set i { b with claimed := true }) := by
  induction l generalizing i with
  | nil => simp at hb
  | cons c cs ih =>
    cases i with
    | zero =>
      simp at hb
      subst hb
      exact List.Forall₂.cons (Or.inr rfl) (claimedOnly_refl cs)
    | succ n =>
      simp at hb
      exact List.Forall₂.cons (betRel_refl c) (ih hb)

theorem ClaimedOnly.get? {l l' : List Bet} (h : ClaimedOnly l l') (i : Nat) :
    (l[i]? = none ∧ l'[i]? = none) ∨
    ∃ b b', l[i]? = some b ∧ l'[i]? = some b' ∧ BetRel b b' := by
  induction h generalizing i with
  | nil => simp
  | cons hab htail ih =>
    cases i with
    | zero => right; refine ⟨_, _, ?_, ?_, hab⟩ <;> simp
    | succ n => simpa using ih n

theorem sumOption_claimedOnly {l l' : List Bet} (h : ClaimedOnly l l')
    (o : Nat) : sumOption o l' = sumOption o l := by
  induction h with
  | nil => rfl
  | cons hab htail ih =>
    simp [sumOption, ih, hab.option_eq, hab.amount_eq]

/-! ## Characterizing the claim loop -/

/-- The pair `(totalWinnings, totalFees)` the claim loop accumulates,
computed as a sum over the given indices into the given (fixed) bet list:
each index whose bet is unclaimed and on the winning option contributes
`payoutE`/its fee, every other index contributes nothing. -/
def claimTotals (wOpt W L f : Nat) (bets : List Bet) : List Nat → Nat × Nat
  | [] => (0, 0)
  | i :: is =>
    let rest := claimTotals wOpt W L f bets is
    match bets[i]? with
    | some b =>
      if ¬ b.claimed ∧ b.option = wOpt then
        (payoutE b.amount L W f + rest.1, feeOf (shareE b.amount L W) f + rest.2)
      else rest
    | none => rest

/-- The bet list after the claim loop: every indexed, unclaimed bet on the
winning option is marked claimed. -/
def markClaimed (wOpt : Nat) : List Nat → List Bet → List Bet
  | [], bets => bets
  | i :: is, bets =>
    match bets[i]? with
    | some b =>
      if ¬ b.claimed ∧ b.option = wOpt then
        markClaimed wOpt is (bets.set i { b with claimed := true })
      else markClaimed wOpt is bets
    | none => markClaimed wOpt is bets

theorem claimLoopE_claimedOnly {wOpt W L f : Nat} {idxs : List Nat}
    {bets bets' : List Bet} {tw tf tw' tf' : Nat}
    (h : claimLoopE wOpt W L f idxs bets tw tf = .ok (bets', tw', tf')) :
    ClaimedOnly bets bets' := by
  induction idxs generalizing bets tw tf with
  | nil =>
    simp [claimLoopE] at h
    exact h.1 ▸ claimedOnly_refl bets
  | cons i is ih =>
    rw [claimLoopE] at h
    cases hb : bets[i]? with
    | none => simp [hb] at h
    | some b =>
      simp only [hb] at h
      by_cases he : ¬ b.claimed ∧ b.option = wOpt
      · rw [if_pos he] at h
        by_cases hW : W = 0
        · rw [if_pos hW] at h; exact absurd h (by simp)
        · rw [if_neg hW] at h
          exact claimedOnly_trans (claimedOnly_set hb) (ih h)
      · rw [if_neg he] at h
        exact ih h

theorem claimLoopE_ok_length {wOpt W L f : Nat} {idxs : List Nat}
    {bets bets' : List Bet} {tw tf tw' tf' : Nat}
    (h : claimLoopE wOpt W L f idxs bets tw tf = .ok (bets', tw', tf')) :
    bets'.length = bets.length :=
  (claimLoopE_claimedOnly h).length_eq

theorem claimLoopE_ok_inbounds {wOpt W L f : Nat} {idxs : List Nat}
    {bets bets' : List Bet} {tw tf tw' tf' : Nat}
    (h : claimLoopE wOpt W L f idxs bets tw tf = .ok (bets', tw', tf')) :
    ∀ i ∈ idxs, i < bets.length := by
  induction idxs generalizing bets tw tf with
  | nil => intro i hi; cases hi
  | cons j js ih =>
    rw [claimLoopE] at h
    cases hb : bets[j]? with
    | none => simp [hb] at h
    | some b =>
      simp only [hb] at h
      have hj : j < bets.length := by
        by_contra hc
        rw [List.getElem?_eq_none (by omega)] at hb
        cases hb
      intro i hi
      rcases List.mem_cons.mp hi with rfl | hmem
      · exact hj
      · by_cases he : ¬ b.claimed ∧ b.option = wOpt
        · rw [if_pos he] at h
          by_cases hW : W = 0
          · rw [if_pos hW] at h; exact absurd h (by simp)
          · rw [if_neg hW] at h
            have := ih h i hmem
            simpa using this
        · rw [if_neg he] at h
          exact ih h i hmem

/-- If every indexed bet is already claimed or on a losing option, the claim
loop is a no-op that accumulates nothing. -/
theorem claimLoopE_ineligible {wOpt W L f : Nat} {idxs : List Nat}
    {bets : List Bet} {tw tf : Nat}
    (h : ∀ i ∈ idxs, ∃ b, bets[i]? = some b ∧
      (b.claimed = true ∨ b.option ≠ wOpt)) :
    claimLoopE wOpt W L f idxs bets tw tf = .ok (bets, tw, tf) := by
  induction idxs with
  | nil => rfl
  | cons i is ih =>
    obtain ⟨b, hb, hine⟩ := h i (List.mem_cons_self i is)
    rw [claimLoopE]
    simp only [hb]
    rw [if_neg (by rcases hine with h1 | h1 <;> simp [h1]),
      ih (fun j hj => h j (List.mem_cons_of_mem i hj))]

/-- After a successful claim loop, every indexed bet is claimed or on a
losing option — a second pass over the same indices finds nothing. -/
theorem claimLoopE_ok_ineligible {wOpt W L f : Nat} {idxs : List Nat}
    {bets bets' : List Bet} {tw tf tw' tf' : Nat}
    (h : claimLoopE wOpt W L f idxs bets tw tf = .ok (bets', tw', tf')) :
    ∀ i ∈ idxs, ∃ b', bets'[i]? = some b' ∧
      (b'.claimed = true ∨ b'.option ≠ wOpt) := by
  induction idxs generalizing bets tw tf with
  | nil => intro i hi; cases hi
  | cons j js ih =>
    rw [claimLoopE] at h
    cases hb : bets[j]? with
    | none => simp [hb] at h
    | some b =>
      simp only [hb] at h
      intro i hi
      by_cases he : ¬ b.claimed ∧ b.option = wOpt
      · rw [if_pos he] at h
        by_cases hW : W = 0
        · rw [if_pos hW] at h; exact absurd h (by simp)
        · rw [if_neg hW] at h
          rcases List.mem_cons.mp hi with rfl | hmem
          · -- position `i` is set to claimed, and stays claimed afterwards
            have hset : (bets.set i { b with claimed := true })[i]? =
                some { b with claimed := true } := by
              apply List.getElem?_set_eq_of_lt
              by_contra hc
              rw [List.getElem?_eq_none (by omega)] at hb
              cases hb
            rcases (claimLoopE_claimedOnly h).get? i with ⟨h1, _⟩ | ⟨c, c', h1, h2, hrel⟩
            · rw [hset] at h1; cases h1
            · rw [hset] at h1
              cases h1
              exact ⟨c', h2, Or.inl (hrel.claimed_mono rfl)⟩
          · exact ih h i hmem
      · rw [if_neg he] at h
        rcases List.mem_cons.mp hi with rfl | hmem
        · -- position `i` was ineligible and only claimed flags ever change
          have hine : b.claimed = true ∨ b.option ≠ wOpt := by
            by_contra hc
            push_neg at hc
            exact he ⟨by simp [hc.1], hc.2⟩
          rcases (claimLoopE_claimedOnly h).get? i with ⟨h1, _⟩ | ⟨c, c', h1, h2, hrel⟩
          · rw [hb] at h1; cases h1
          · rw [hb] at h1
            cases h1
            refine ⟨c', h2, ?_⟩
            rcases hine with h1 | h1
            · exact Or.inl (hrel.claimed_mono h1)
            · rw [hrel.option_eq]; exact Or.inr h1
        · exact ih h i hmem

theorem claimTotals_congr {wOpt W L f : Nat} {bets bets₂ : List Bet}
    {idxs : List Nat} (h : ∀ i ∈ idxs, bets[i]? = bets₂[i]?) :
    claimTotals wOpt W L f bets idxs = claimTotals wOpt W L f bets₂ idxs := by
  induction idxs with
  | nil => rfl
  | cons i is ih =>
    rw [claimTotals, claimTotals,
      ih (fun j hj => h j (List.mem_cons_of_mem i hj)),
      h i (List.mem_cons_self i is)]

/-- Full characterization of the claim loop on a positive winning pool and
duplicate-free, in-bounds indices: it marks the eligible bets claimed and
accumulates exactly the `claimTotals` sums. -/
theorem claimLoopE_characterize {wOpt W L f : Nat} {idxs : List Nat}
    {bets : List Bet} {tw tf : Nat} (hnd : idxs.Nodup)
    (hbd : ∀ i ∈ idxs, i < bets.length) (hW : 0 < W) :
    claimLoopE wOpt W L f idxs bets tw tf =
      .ok (markClaimed wOpt idxs bets,
        tw + (claimTotals wOpt W L f bets idxs).1,
        tf + (claimTotals wOpt W L f bets idxs).2) := by
  induction idxs generalizing bets tw tf with
  | nil => simp [claimLoopE, markClaimed, claimTotals]
  | cons i is ih =>
    have hi : i < bets.length := hbd i (List.mem_cons_self i is)
    have hbi : bets[i]? = some bets[i] := List.getElem?_eq_getElem hi
    have hnotmem : i ∉ is := (List.nodup_cons.mp hnd).1
    have hndtail : is.Nodup := (List.nodup_cons.mp hnd).2
    rw [claimLoopE]
    conv_rhs => rw [markClaimed, claimTotals]
    simp only [hbi]
    by_cases he : ¬ (bets[i]).claimed ∧ (bets[i]).option = wOpt
    · simp only [if_pos he, if_neg (show ¬ W = 0 by omega)]
      have hset : ∀ j ∈ is,
          (bets.set i { bets[i] with claimed := true })[j]? = bets[j]? := by
        intro j hj
        exact List.getElem?_set_ne (by intro hij; exact hnotmem (hij ▸ hj))
      rw [ih hndtail
        (by intro j hj; rw [List.length_set]; exact hbd j (List.mem_cons_of_mem i hj)),
        claimTotals_congr hset]
      simp [Nat.add_assoc]
    · simp only [if_neg he]
      rw [ih hndtail (fun j hj => hbd j (List.mem_cons_of_mem i hj))]

/-! ## The refund loop -/

theorem refundLoopE_claimedOnly {idxs : List Nat} {bets bets' : List Bet}
    {tr tr' : Nat} (h : refundLoopE idxs bets tr = .ok (bets', tr')) :
    ClaimedOnly bets bets' := by
  induction idxs generalizing bets tr with
  | nil =>
    simp [refundLoopE] at h
    exact h.1 ▸ claimedOnly_refl bets
  | cons i is ih =>
    rw [refundLoopE] at h
    cases hb : bets[i]? with
    | none => simp [hb] at h
    | some b =>
      simp only [hb] at h
      by_cases hc : ¬ b.claimed
      · rw [if_pos hc] at h
        exact claimedOnly_trans (claimedOnly_set hb) (ih h)
      · rw [if_neg hc] at h
        exact ih h

theorem refundLoopE_ok_length {idxs : List Nat} {bets bets' : List Bet}
    {tr tr' : Nat} (h : refundLoopE idxs bets tr = .ok (bets', tr')) :
    bets'.length = bets.length :=
  (refundLoopE_claimedOnly h).length_eq

/-- If every indexed bet is already claimed, the refund loop is a no-op. -/
theorem refundLoopE_allClaimed {idxs : List Nat} {bets : List Bet} {tr : Nat}
    (h : ∀ i ∈ idxs, ∃ b, bets[i]? = some b ∧ b.claimed = true) :
    refundLoopE idxs bets tr = .ok (bets, tr) := by
  induction idxs with
  | nil => rfl
  | cons i is ih =>
    obtain ⟨b, hb, hcl⟩ := h i (List.mem_cons_self i is)
    rw [refundLoopE]
    simp only [hb]
    rw [if_neg (by simp [hcl]),
      ih (fun j hj => h j (List.mem_cons_of_mem i hj))]

/-- After a successful refund loop, every indexed bet is claimed. -/
theorem refundLoopE_ok_claimed {idxs : List Nat} {bets bets' : List Bet}
    {tr tr' : Nat} (h : refundLoopE idxs bets tr = .ok (bets', tr')) :
    ∀ i ∈ idxs, ∃ b', bets'[i]? = some b' ∧ b'.claimed = true := by
  induction idxs generalizing bets tr with
  | nil => intro i hi; cases hi
  | cons j js ih =>
    rw [refundLoopE] at h
    cases hb : bets[j]? with
    | none => simp [hb] at h
    | some b =>
      simp only [hb] at h
      intro i hi
      by_cases hc : ¬ b.claimed
      · rw [if_pos hc] at h
        rcases List.mem_cons.mp hi with rfl | hmem
        · have hset : (bets.set i { b with claimed := true })[i]? =
              some { b with claimed := true } := by
            apply List.getElem?_set_eq_of_lt
            by_contra hcon
            rw [List.getElem?_eq_none (by omega)] at hb
            cases hb
          rcases (refundLoopE_claimedOnly h).get? i with ⟨h1, _⟩ | ⟨c, c', h1, h2, hrel⟩
          · rw [hset] at h1; cases h1
          · rw [hset] at h1
            cases h1
            exact ⟨c', h2, hrel.claimed_mono rfl⟩
        · exact ih h i hmem
      · rw [if_neg hc] at h
        rcases List.mem_cons.mp hi with rfl | hmem
        · have hcl : b.claimed = true := by
            by_contra hcon
            exact hc (by simp [hcon])
          rcases (refundLoopE_claimedOnly h).get? i with ⟨h1, _⟩ | ⟨c, c', h1, h2, hrel⟩
          · rw [hb] at h1; cases h1
          · rw [hb] at h1
            cases h1
            exact ⟨c', h2, hrel.claimed_mono hcl⟩
        · exact ih h i hmem

/-! ## Inversion lemmas: what a successful call tells us -/

theorem createMarket_ok {sender now mId : Nat} {mty : MarketType} {q : String}
    {rt ds th tht : Nat} {s s' : State}
    (h : createMarket sender now mId mty q rt ds th tht s = .ok s') :
    (s.markets mId).marketId = 0 ∧ now < rt ∧ q ≠ "" ∧
    s' = { s with
      markets := upd s.markets mId
        { marketId := mId, marketType := mty, question := q, creator := sender,
          createdAt := now, resolutionTime := rt, status := .ACTIVE,
          winningOption := 0, totalPool := 0, optionPools := (0, 0),
          dataSourceId := ds, threshold := th, thresholdToken := tht }
      activeMarkets := s.activeMarkets ++ [mId] } := by
  simp only [createMarket] at h
  split_ifs at h with h1 h2 h3
  cases h
  exact ⟨by simpa using h1, by omega, h3, rfl⟩

theorem placeBet_ok {sender now mId opt amt : Nat} {s s' : State}
    (h : placeBet sender now mId opt amt s = .ok s') :
    (s.markets mId).marketId ≠ 0 ∧ (s.markets mId).status = .ACTIVE ∧
    opt ≤ 1 ∧ s.minBetAmount ≤ amt ∧ amt ≤ s.maxBetAmount ∧
    s' = { s with
      marketBets := upd s.marketBets mId
        (s.marketBets mId ++
          [{ bettor := sender, marketId := mId, option := opt, amount := amt,
             timestamp := now, claimed := false }])
      userBets := upd s.userBets sender (s.userBets sender ++ [mId])
      userBetIndices := upd2 s.userBetIndices mId sender
        (s.userBetIndices mId sender ++ [(s.marketBets mId).length])
      markets := upd s.markets mId
        { s.markets mId with
          optionPools := bumpPool (s.markets mId).optionPools opt amt
          totalPool := (s.markets mId).totalPool + amt } } := by
  simp only [placeBet] at h
  split_ifs at h with h1 h2 h3 h4 h5
  cases h
  exact ⟨h1, by simpa using h2, by omega, by omega, by omega, rfl⟩

theorem resolveMarket_ok {sender now mId wOpt : Nat} {s s' : State}
    (h : resolveMarket sender now mId wOpt s = .ok s') :
    (s.authorizedResolvers sender = true ∨ sender = s.owner) ∧
    (s.markets mId).marketId ≠ 0 ∧ (s.markets mId).status = .ACTIVE ∧
    wOpt ≤ 1 ∧ (s.markets mId).resolutionTime ≤ now ∧
    s' = { s with
      markets := upd s.markets mId
        { s.markets mId with status := .RESOLVED, winningOption := wOpt } } := by
  simp only [resolveMarket] at h
  split_ifs at h with h1 h2 h3 h4 h5
  cases h
  exact ⟨by tauto, h2, by simpa using h3, by omega, by omega, rfl⟩

theorem cancelMarket_ok {sender mId : Nat} {s s' : State}
    (h : cancelMarket sender mId s = .ok s') :
    sender = s.owner ∧ (s.markets mId).marketId ≠ 0 ∧
    (s.markets mId).status = .ACTIVE ∧
    s' = { s with
      markets := upd s.markets mId
        { s.markets mId with status := .CANCELLED } } := by
  simp only [cancelMarket] at h
  split_ifs at h with h1 h2 h3
  cases h
  exact ⟨by tauto, h2, by simpa using h3, rfl⟩

theorem claimWinnings_ok {sender mId : Nat} {s s' : State} {w : Nat}
    (h : claimWinnings sender mId s = .ok (s', w)) :
    (s.markets mId).marketId ≠ 0 ∧ (s.markets mId).status = .RESOLVED ∧
    s.userBetIndices mId sender ≠ [] ∧ w ≠ 0 ∧
    ∃ bets' tf,
      claimLoopE (s.markets mId).winningOption
        (poolOf (s.markets mId).optionPools (s.markets mId).winningOption)
        (poolOf (s.markets mId).optionPools
          (if (s.markets mId).winningOption = 0 then 1 else 0))
        s.platformFee (s.userBetIndices mId sender) (s.marketBets mId) 0 0 =
        .ok (bets', w, tf) ∧
      s' = { s with marketBets := upd s.marketBets mId bets'
                    collectedFees := s.collectedFees + tf } := by
  simp only [claimWinnings] at h
  by_cases h1 : (s.markets mId).marketId = 0
  · rw [if_pos h1] at h; cases h
  rw [if_neg h1] at h
  by_cases h2 : (s.markets mId).status ≠ .RESOLVED
  · rw [if_pos h2] at h; cases h
  rw [if_neg h2] at h
  by_cases h3 : s.userBetIndices mId sender = []
  · rw [if_pos h3] at h; cases h
  rw [if_neg h3] at h
  refine ⟨h1, by simpa using h2, h3, ?_⟩
  revert h
  cases hloop : claimLoopE (s.markets mId).winningOption
      (poolOf (s.markets mId).optionPools (s.markets mId).winningOption)
      (poolOf (s.markets mId).optionPools
        (if (s.markets mId).winningOption = 0 then 1 else 0))
      s.platformFee (s.userBetIndices mId sender) (s.marketBets mId) 0 0 with
  | error e => intro h; cases h
  | ok r =>
    obtain ⟨bets', tw, tf⟩ := r
    intro h
    replace h : (if tw = 0 then (Except.error Err.NoWinningsToClaim : Except Err (State × Nat))
        else .ok ({ s with marketBets := upd s.marketBets mId bets'
                           collectedFees := s.collectedFees + tf }, tw)) = .ok (s', w) := h
    by_cases h4 : tw = 0
    · rw [if_pos h4] at h; cases h
    · rw [if_neg h4] at h
      cases h
      exact ⟨h4, bets', tf, rfl, rfl⟩

theorem refundBets_ok {sender mId : Nat} {s s' : State} {r : Nat}
    (h : refundBets sender mId s = .ok (s', r)) :
    (s.markets mId).marketId ≠ 0 ∧ (s.markets mId).status = .CANCELLED ∧
    s.userBetIndices mId sender ≠ [] ∧ r ≠ 0 ∧
    ∃ bets',
      refundLoopE (s.userBetIndices mId sender) (s.marketBets mId) 0 =
        .ok (bets', r) ∧
      s' = { s with marketBets := upd s.marketBets mId bets' } := by
  simp only [refundBets] at h
  by_cases h1 : (s.markets mId).marketId = 0
  · rw [if_pos h1] at h; cases h
  rw [if_neg h1] at h
  by_cases h2 : (s.markets mId).status ≠ .CANCELLED
  · rw [if_pos h2] at h; cases h
  rw [if_neg h2] at h
  by_cases h3 : s.userBetIndices mId sender = []
  · rw [if_pos h3] at h; cases h
  rw [if_neg h3] at h
  refine ⟨h1, by simpa using h2, h3, ?_⟩
  revert h
  cases hloop : refundLoopE (s.userBetIndices mId sender) (s.marketBets mId) 0 with
  | error e => intro h; cases h
  | ok p =>
    obtain ⟨bets', tr⟩ := p
    intro h
    replace h : (if tr = 0 then (Except.error Err.NoRefundsAvailable : Except Err (State × Nat))
        else .ok ({ s with marketBets := upd s.marketBets mId bets' }, tr)) = .ok (s', r) := h
    by_cases h4 : tr = 0
    · rw [if_pos h4] at h; cases h
    · rw [if_neg h4] at h
      cases h
      exact ⟨h4, bets', rfl, rfl⟩

theorem withdrawFees_ok {sender : Nat} {s s' : State}
    (h : withdrawFees sender s = .ok s') :
    sender = s.owner ∧ s.collectedFees ≠ 0 ∧
    s' = { s with collectedFees := 0 } := by
  simp only [withdrawFees] at h
  split_ifs at h with h1 h2
  cases h
  exact ⟨by tauto, h2, rfl⟩

theorem setPlatformFee_ok {sender fee : Nat} {s s' : State}
    (h : setPlatformFee sender fee s = .ok s') :
    sender = s.owner ∧ fee ≤ 1000 ∧ s' = { s with platformFee := fee } := by
  simp only [setPlatformFee] at h
  split_ifs at h with h1 h2
  cases h
  exact ⟨by tauto, by omega, rfl⟩

theorem setBetLimits_ok {sender mn mx : Nat} {s s' : State}
    (h : setBetLimits sender mn mx s = .ok s') :
    sender = s.owner ∧ mn < mx ∧
    s' = { s with minBetAmount := mn, maxBetAmount := mx } := by
  simp only [setBetLimits] at h
  split_ifs at h with h1 h2
  cases h
  exact ⟨by tauto, by tauto, rfl⟩

theorem setResolver_ok {sender addr : Nat} {b : Bool} {s s' : State}
    (h : setResolver sender addr b s = .ok s') :
    sender = s.owner ∧
    s' = { s with authorizedResolvers := upd s.authorizedResolvers addr b } := by
  simp only [setResolver] at h
  split_ifs at h with h1
  cases h
  exact ⟨by tauto, rfl⟩

/-! ## The ledger invariant -/

/-- Invariant of every reachable storage state.  Note that a market created
under the all-zero id keeps `marketId = 0` and is therefore rejected by the
existence check of `placeBet`/`resolveMarket`/`cancelMarket`, so it never
holds bets or leaves `ACTIVE`; `fresh_empty` covers it together with
never-created ids. -/
structure LedgerInv (s : State) : Prop where
  pools_sum : ∀ m, (s.markets m).totalPool =
    (s.markets m).optionPools.1 + (s.markets m).optionPools.2
  no_locked : ∀ m, (s.markets m).status ≠ .LOCKED
  id_consistent : ∀ m,
    (s.markets m).marketId = 0 ∨ (s.markets m).marketId = m
  fresh_empty : ∀ m, (s.markets m).marketId = 0 →
    (s.markets m).optionPools = (0, 0) ∧ (s.markets m).totalPool = 0 ∧
    s.marketBets m = [] ∧ (s.markets m).status = .ACTIVE
  pools_track : ∀ m,
    (s.markets m).optionPools.1 = sumOption 0 (s.marketBets m) ∧
    (s.markets m).optionPools.2 = sumOption 1 (s.marketBets m)
  idx_bound : ∀ m a, ∀ i ∈ s.userBetIndices m a, i < (s.marketBets m).length
  idx_nodup : ∀ m a, (s.userBetIndices m a).Nodup
  fee_le : s.platformFee ≤ 1000
  wopt_le : ∀ m, (s.markets m).winningOption ≤ 1

theorem inv_init (deployer : Nat) : LedgerInv (initState deployer) := by
  constructor <;> simp [initState, emptyMarket, sumOption]

theorem inv_createMarket {sender now mId : Nat} {mty : MarketType}
    {q : String} {rt ds th tht : Nat} {s s' : State} (hInv : LedgerInv s)
    (h : createMarket sender now mId mty q rt ds th tht s = .ok s') :
    LedgerInv s' := by
  obtain ⟨hid0, hrt, hq, rfl⟩ := createMarket_ok h
  have hbets0 : s.marketBets mId = [] := (hInv.fresh_empty mId hid0).2.2.1
  constructor
  · intro m
    by_cases hm : m = mId
    · subst hm; simp [upd_same]
    · simp only [upd_apply, if_neg hm]; exact hInv.pools_sum m
  · intro m
    by_cases hm : m = mId
    · subst hm; simp [upd_same]
    · simp only [upd_apply, if_neg hm]; exact hInv.no_locked m
  · intro m
    by_cases hm : m = mId
    · subst hm; simp [upd_same]
    · simp only [upd_apply, if_neg hm]; exact hInv.id_consistent m
  · intro m hm0
    by_cases hm : m = mId
    · subst hm
      simp only [upd_same] at hm0 ⊢
      exact ⟨trivial, trivial, hbets0, trivial⟩
    · simp only [upd_apply, if_neg hm] at hm0 ⊢
      exact hInv.fresh_empty m hm0
  · intro m
    by_cases hm : m = mId
    · subst hm; simp [upd_same, hbets0, sumOption]
    · simp only [upd_apply, if_neg hm]; exact hInv.pools_track m
  · exact hInv.idx_bound
  · exact hInv.idx_nodup
  · exact hInv.fee_le
  · intro m
    by_cases hm : m = mId
    · subst hm; simp [upd_same]
    · simp only [upd_apply, if_neg hm]; exact hInv.wopt_le m

theorem inv_placeBet {sender now mId opt amt : Nat} {s s' : State}
    (hInv : LedgerInv s) (h : placeBet sender now mId opt amt s = .ok s') :
    LedgerInv s' := by
  obtain ⟨hex, hact, hopt, hmin, hmax, rfl⟩ := placeBet_ok h
  have hsum := hInv.pools_sum mId
  have htrack := hInv.pools_track mId
  constructor
  · intro m
    by_cases hm : m = mId
    · subst hm
      by_cases ho : opt = 0 <;> simp [upd_same, bumpPool, ho] <;> omega
    · simp only [upd_apply, if_neg hm]; exact hInv.pools_sum m
  · intro m
    by_cases hm : m = mId
    · subst hm; simp [upd_same]; exact hInv.no_locked m
    · simp only [upd_apply, if_neg hm]; exact hInv.no_locked m
  · intro m
    by_cases hm : m = mId
    · subst hm; simp [upd_same]; exact hInv.id_consistent m
    · simp only [upd_apply, if_neg hm]; exact hInv.id_consistent m
  · intro m hm0
    by_cases hm : m = mId
    · subst hm; simp only [upd_same] at hm0; exact absurd hm0 hex
    · simp only [upd_apply, if_neg hm] at hm0 ⊢
      exact hInv.fresh_empty m hm0
  · intro m
    by_cases hm : m = mId
    · subst hm
      by_cases ho : opt = 0
      · simp [upd_same, bumpPool, ho, sumOption_append, sumOption, htrack.1,
          htrack.2]
      · have ho1 : opt = 1 := by omega
        simp [upd_same, bumpPool, ho, ho1, sumOption_append, sumOption,
          htrack.1, htrack.2]
    · simp only [upd_apply, if_neg hm]; exact hInv.pools_track m
  · intro m a i hi
    simp only [upd2_apply] at hi
    simp only [upd_apply]
    by_cases hma : m = mId ∧ a = sender
    · rw [if_pos hma] at hi
      rw [if_pos hma.1]
      rcases List.mem_append.mp hi with hold | hnew
      · have hb := hInv.idx_bound mId sender i hold
        simp only [List.length_append, List.length_cons, List.length_nil]
        omega
      · simp only [List.mem_singleton] at hnew
        subst hnew
        simp
    · rw [if_neg hma] at hi
      by_cases hm : m = mId
      · rw [if_pos hm]
        have hb := hInv.idx_bound m a i hi
        rw [hm] at hb
        simp only [List.length_append, List.length_cons, List.length_nil]
        omega
      · rw [if_neg hm]
        exact hInv.idx_bound m a i hi
  · intro m a
    simp only [upd2_apply]
    by_cases hma : m = mId ∧ a = sender
    · rw [if_pos hma]
      rw [List.nodup_append]
      refine ⟨hInv.idx_nodup mId sender, by simp, ?_⟩
      intro x hx hx2
      simp only [List.mem_singleton] at hx2
      subst hx2
      exact absurd (hInv.idx_bound mId sender _ hx) (by omega)
    · rw [if_neg hma]; exact hInv.idx_nodup m a
  · exact hInv.fee_le
  · intro m
    by_cases hm : m = mId
    · subst hm; simp [upd_same]; exact hInv.wopt_le m
    · simp only [upd_apply, if_neg hm]; exact hInv.wopt_le m

theorem inv_resolveMarket {sender now mId wOpt : Nat} {s s' : State}
    (hInv : LedgerInv s) (h : resolveMarket sender now mId wOpt s = .ok s') :
    LedgerInv s' := by
  obtain ⟨hauth, hex, hact, hw, hrt, rfl⟩ := resolveMarket_ok h
  constructor
  · intro m
    by_cases hm : m = mId
    · subst hm; simp [upd_same]; exact hInv.pools_sum m
    · simp only [upd_apply, if_neg hm]; exact hInv.pools_sum m
  · intro m
    by_cases hm : m = mId
    · subst hm; simp [upd_same]
    · simp only [upd_apply, if_neg hm]; exact hInv.no_locked m
  · intro m
    by_cases hm : m = mId
    · subst hm; simp [upd_same]; exact hInv.id_consistent m
    · simp only [upd_apply, if_neg hm]; exact hInv.id_consistent m
  · intro m hm0
    by_cases hm : m = mId
    · subst hm; simp only [upd_same] at hm0; exact absurd hm0 hex
    · simp only [upd_apply, if_neg hm] at hm0 ⊢
      exact hInv.fresh_empty m hm0
  · intro m
    by_cases hm : m = mId
    · subst hm; simp [upd_same]; exact hInv.pools_track m
    · simp only [upd_apply, if_neg hm]; exact hInv.pools_track m
  · exact hInv.idx_bound
  · exact hInv.idx_nodup
  · exact hInv.fee_le
  · intro m
    by_cases hm : m = mId
    · subst hm; simp [upd_same]; omega
    · simp only [upd_apply, if_neg hm]; exact hInv.wopt_le m

theorem inv_cancelMarket {sender mId : Nat} {s s' : State}
    (hInv : LedgerInv s) (h : cancelMarket sender mId s = .ok s') :
    LedgerInv s' := by
  obtain ⟨hown, hex, hact, rfl⟩ := cancelMarket_ok h
  constructor
  · intro m
    by_cases hm : m = mId
    · subst hm; simp [upd_same]; exact hInv.pools_sum m
    · simp only [upd_apply, if_neg hm]; exact hInv.pools_sum m
  · intro m
    by_cases hm : m = mId
    · subst hm; simp [upd_same]
    · simp only [upd_apply, if_neg hm]; exact hInv.no_locked m
  · intro m
    by_cases hm : m = mId
    · subst hm; simp [upd_same]; exact hInv.id_consistent m
    · simp only [upd_apply, if_neg hm]; exact hInv.id_consistent m
  · intro m hm0
    by_cases hm : m = mId
    · subst hm; simp only [upd_same] at hm0; exact absurd hm0 hex
    · simp only [upd_apply, if_neg hm] at hm0 ⊢
      exact hInv.fresh_empty m hm0
  · intro m
    by_cases hm : m = mId
    · subst hm; simp [upd_same]; exact hInv.pools_track m
    · simp only [upd_apply, if_neg hm]; exact hInv.pools_track m
  · exact hInv.idx_bound
  · exact hInv.idx_nodup
  · exact hInv.fee_le
  · intro m
    by_cases hm : m = mId
    · subst hm; simp [upd_same]; exact hInv.wopt_le m
    · simp only [upd_apply, if_neg hm]; exact hInv.wopt_le m

theorem inv_claimWinnings {sender mId : Nat} {s s' : State} {w : Nat}
    (hInv : LedgerInv s) (h : claimWinnings sender mId s = .ok (s', w)) :
    LedgerInv s' := by
  obtain ⟨hex, hres, hne, hw, bets', tf, hloop, rfl⟩ := claimWinnings_ok h
  have hco : ClaimedOnly (s.marketBets mId) bets' := claimLoopE_claimedOnly hloop
  have hlen : bets'.length = (s.marketBets mId).length := hco.length_eq
  constructor
  · exact hInv.pools_sum
  · exact hInv.no_locked
  · exact hInv.id_consistent
  · intro m hm0
    by_cases hm : m = mId
    · subst hm; exact absurd hm0 hex
    · simp only [upd_apply, if_neg hm]
      exact hInv.fresh_empty m hm0
  · intro m
    by_cases hm : m = mId
    · subst hm
      simp only [upd_same]
      rw [sumOption_claimedOnly hco, sumOption_claimedOnly hco]
      exact hInv.pools_track m
    · simp only [upd_apply, if_neg hm]; exact hInv.pools_track m
  · intro m a i hi
    by_cases hm : m = mId
    · subst hm
      simp only [upd_same, hlen]
      exact hInv.idx_bound m a i hi
    · simp only [upd_apply, if_neg hm]
      exact hInv.idx_bound m a i hi
  · exact hInv.idx_nodup
  · exact hInv.fee_le
  · exact hInv.wopt_le

theorem inv_refundBets {sender mId : Nat} {s s' : State} {r : Nat}
    (hInv : LedgerInv s) (h : refundBets sender mId s = .ok (s', r)) :
    LedgerInv s' := by
  obtain ⟨hex, hcan, hne, hr, bets', hloop, rfl⟩ := refundBets_ok h
  have hco : ClaimedOnly (s.marketBets mId) bets' := refundLoopE_claimedOnly hloop
  have hlen : bets'.length = (s.marketBets mId).length := hco.length_eq
  constructor
  · exact hInv.pools_sum
  · exact hInv.no_locked
  · exact hInv.id_consistent
  · intro m hm0
    by_cases hm : m = mId
    · subst hm; exact absurd hm0 hex
    · simp only [upd_apply, if_neg hm]
      exact hInv.fresh_empty m hm0
  · intro m
    by_cases hm : m = mId
    · subst hm
      simp only [upd_same]
      rw [sumOption_claimedOnly hco, sumOption_claimedOnly hco]
      exact hInv.pools_track m
    · simp only [upd_apply, if_neg hm]; exact hInv.pools_track m
  · intro m a i hi
    by_cases hm : m = mId
    · subst hm
      simp only [upd_same, hlen]
      exact hInv.idx_bound m a i hi
    · simp only [upd_apply, if_neg hm]
      exact hInv.idx_bound m a i hi
  · exact hInv.idx_nodup
  · exact hInv.fee_le
  · exact hInv.wopt_le

theorem inv_exec {op : Op} {s s' : State} (hInv : LedgerInv s)
    (h : exec op s = .ok s') : LedgerInv s' := by
  cases op with
  | createMarket sender now mId mty q rt ds th tht =>
    exact inv_createMarket hInv h
  | placeBet sender now mId opt amt => exact inv_placeBet hInv h
  | resolveMarket sender now mId wOpt => exact inv_resolveMarket hInv h
  | cancelMarket sender mId => exact inv_cancelMarket hInv h
  | claimWinnings sender mId =>
    simp only [exec] at h
    cases hc : claimWinnings sender mId s with
    | error e => rw [hc] at h; cases h
    | ok p =>
      rw [hc] at h
      cases h
      exact inv_claimWinnings hInv hc
  | refundBets sender mId =>
    simp only [exec] at h
    cases hc : refundBets sender mId s with
    | error e => rw [hc] at h; cases h
    | ok p =>
      rw [hc] at h
      cases h
      exact inv_refundBets hInv hc
  | withdrawFees sender =>
    obtain ⟨hown, hcf, rfl⟩ := withdrawFees_ok h
    exact ⟨hInv.pools_sum, hInv.no_locked, hInv.id_consistent,
      hInv.fresh_empty, hInv.pools_track, hInv.idx_bound, hInv.idx_nodup,
      hInv.fee_le, hInv.wopt_le⟩
  | setPlatformFee sender fee =>
    obtain ⟨hown, hfee, rfl⟩ := setPlatformFee_ok h
    exact ⟨hInv.pools_sum, hInv.no_locked, hInv.id_consistent,
      hInv.fresh_empty, hInv.pools_track, hInv.idx_bound, hInv.idx_nodup,
      hfee, hInv.wopt_le⟩
  | setBetLimits sender mn mx =>
    obtain ⟨hown, hlim, rfl⟩ := setBetLimits_ok h
    exact ⟨hInv.pools_sum, hInv.no_locked, hInv.id_consistent,
      hInv.fresh_empty, hInv.pools_track, hInv.idx_bound, hInv.idx_nodup,
      hInv.fee_le, hInv.wopt_le⟩
  | setResolver sender addr b =>
    obtain ⟨hown, rfl⟩ := setResolver_ok h
    exact ⟨hInv.pools_sum, hInv.no_locked, hInv.id_consistent,
      hInv.fresh_empty, hInv.pools_track, hInv.idx_bound, hInv.idx_nodup,
      hInv.fee_le, hInv.wopt_le⟩

theorem inv_applyOp (op : Op) {s : State} (hInv : LedgerInv s) :
    LedgerInv (applyOp op s) := by
  unfold applyOp
  cases h : exec op s with
  | ok s' => exact inv_exec hInv h
  | error e => exact hInv

theorem inv_execList (ops : List Op) {s : State} (hInv : LedgerInv s) :
    LedgerInv (execList ops s) := by
  induction ops generalizing s with
  | nil => exact hInv
  | cons op rest ih =>
    rw [execList, List.foldl_cons]
    exact ih (inv_applyOp op hInv)

/-- Every reachable state satisfies the ledger invariant. -/
theorem reachable_inv {s : State} (hs : Reachable s) : LedgerInv s := by
  obtain ⟨deployer, ops, rfl⟩ := hs
  exact inv_execList ops (inv_init deployer)

/-! ## A concrete transaction trace used by the witnesses -/

/-- Deployment by address 1, then: lower the bet limits, create markets 1
and 2, three bets (market 1: 2 on YES by addr 3, 1 on NO by addr 4;
market 2: 2 on YES by addr 5), resolve market 1 to YES, cancel market 2. -/
def demoOps : List Op :=
  [ .setBetLimits 1 1 1000,
    .createMarket 2 0 1 .BLOCK "q" 1 0 0 0,
    .createMarket 2 0 2 .BLOCK "q" 1 0 0 0,
    .placeBet 3 0 1 0 2,
    .placeBet 4 0 1 1 1,
    .placeBet 5 0 2 0 2,
    .resolveMarket 1 1 1 0,
    .cancelMarket 1 2 ]

/-- The storage reached by `demoOps`. -/
def demoState : State := execList demoOps (initState 1)

/-! ## C9: the two per-bet payout computations agree -/

theorem grossN_eq {a W : Nat} (L : Nat) (hW : 0 < W) :
    grossN a (W + L) W = a + shareE a L W := by
  unfold grossN shareE
  rw [show a * (W + L) = a * L + W * a by ring,
    Nat.add_mul_div_left _ _ hW, Nat.add_comm]

theorem profitN_eq {a W : Nat} (L : Nat) (hW : 0 < W) :
    profitN a (W + L) W = shareE a L W := by
  unfold profitN
  rw [grossN_eq L hW]
  by_cases h : shareE a L W = 0
  · simp [h]
  · rw [if_pos (by omega)]
    omega

/-- C9: for `0 < a ≤ W` and total pool `W + L`, the ERC20 per-bet payout
`a + floor(a*L/W) - floor(floor(a*L/W)*f/10000)` and the native-variant
payout `floor(a*(W+L)/W) - floor((floor(a*(W+L)/W) - a)*f/10000)` coincide,
and both accrue the same fee. -/
theorem claim_c9_payout_variants_equivalent (a W L f : Nat) (ha : 0 < a)
    (haW : a ≤ W) :
    payoutN a (W + L) W f = payoutE a L W f ∧
    feeOf (profitN a (W + L) W) f = feeOf (shareE a L W) f := by
  have hW : 0 < W := lt_of_lt_of_le ha haW
  unfold payoutN payoutE
  rw [profitN_eq L hW, grossN_eq L hW]
  exact ⟨rfl, rfl⟩

/-- Witness for C9 at `a = 2`, `W = 3`, `L = 5`, `f = 200`. -/
theorem claim_c9_payout_variants_equivalent_witness :
    (0 < 2 ∧ 2 ≤ 3) ∧
    (payoutN 2 (3 + 5) 3 200 = payoutE 2 5 3 200 ∧
     feeOf (profitN 2 (3 + 5) 3) 200 = feeOf (shareE 2 5 3) 200) :=
  ⟨⟨by decide, by decide⟩,
   claim_c9_payout_variants_equivalent 2 3 5 200 (by decide) (by decide)⟩

/-! ## C7: the odds default -/

/-- C7 counterexample: in `demoState`, market 2 has an empty NO pool but a
non-empty total pool; `getOdds` returns `(10000, 0)`, not the claimed
`2.0x/2.0x` default for both options. -/
theorem claim_c7_cex :
    poolOf (demoState.markets 2).optionPools 1 = 0 ∧
    getOdds 2 demoState ≠ (2 * BASIS_POINTS, 2 * BASIS_POINTS) := by
  constructor
  · decide
  · decide

/-- C7 (amended): `getOdds` returns the 2.0x/2.0x default exactly when
`totalPool = 0` (both pools empty); when `totalPool ≠ 0`, an option whose
own pool is empty gets odds `0`, not the default. -/
theorem claim_c7_odds_default (s : State) (m : Nat) :
    ((s.markets m).totalPool = 0 →
      getOdds m s = (2 * BASIS_POINTS, 2 * BASIS_POINTS)) ∧
    ((s.markets m).totalPool ≠ 0 → (s.markets m).optionPools.1 = 0 →
      (getOdds m s).1 = 0) ∧
    ((s.markets m).totalPool ≠ 0 → (s.markets m).optionPools.2 = 0 →
      (getOdds m s).2 = 0) := by
  refine ⟨fun h0 => by simp [getOdds, h0], fun h0 hp => ?_, fun h0 hp => ?_⟩
  · simp [getOdds, h0, hp]
  · simp [getOdds, h0, hp]

/-- Witness for C7 (amended): the all-zero-pool default on a fresh state,
and the zero odds of market 2's empty NO pool in `demoState`. -/
theorem claim_c7_odds_default_witness :
    ((initState 1).markets 0).totalPool = 0 ∧
    getOdds 0 (initState 1) = (2 * BASIS_POINTS, 2 * BASIS_POINTS) ∧
    (demoState.markets 2).totalPool ≠ 0 ∧
    (demoState.markets 2).optionPools.2 = 0 ∧
    (getOdds 2 demoState).2 = 0 :=
  ⟨by decide, (claim_c7_odds_default (initState 1) 0).1 (by decide),
   by decide, by decide,
   (claim_c7_odds_default demoState 2).2.2 (by decide) (by decide)⟩

/-! ## C5: who may cancel a market -/

/-- A fresh ACTIVE market (id 1) created by address 2; the owner is 1. -/
def demoActive : State :=
  execList [.createMarket 2 0 1 .BLOCK "q" 5 0 0 0] (initState 1)

/-- C5 counterexample: in the ERC20 variant, `cancelMarket` is gated by
`onlyOwner`, so the creator (address 2, not the owner) of the ACTIVE
market 1 cannot cancel it — the call reverts with the ownable error, not
success, contradicting "the creator can always cancel their own ACTIVE
market". -/
theorem claim_c5_cex :
    (demoActive.markets 1).creator = 2 ∧
    (demoActive.markets 1).status = MarketStatus.ACTIVE ∧
    demoActive.owner ≠ 2 ∧
    errOf (cancelMarket 2 1 demoActive) = some Err.NotOwner := by
  refine ⟨by decide, by decide, by decide, by decide⟩

/-- C5 (amended): the claimed creator-or-owner authorization holds for the
native-currency variant (`cancelMarketN`): on an existing ACTIVE market the
creator or the owner succeeds and any other caller fails with
`NotAuthorized`.  In the ERC20 variant (`cancelMarket`) every caller other
than the owner — including the creator — fails with the owner check. -/
theorem claim_c5_cancel_authorization (s : State) (sender mId : Nat)
    (hex : (s.markets mId).marketId ≠ 0)
    (hact : (s.markets mId).status = MarketStatus.ACTIVE) :
    ((sender = (s.markets mId).creator ∨ sender = s.owner) →
      errOf (cancelMarketN sender mId s) = none ∧
      ((stateOf (cancelMarketN sender mId s) s).markets mId).status =
        MarketStatus.CANCELLED) ∧
    (sender ≠ (s.markets mId).creator → sender ≠ s.owner →
      cancelMarketN sender mId s = .error .NotAuthorized) ∧
    (sender ≠ s.owner → cancelMarket sender mId s = .error .NotOwner) := by
  refine ⟨fun hauth => ?_, fun hnc hno => ?_, fun hno => ?_⟩
  · simp [cancelMarketN, hex, hauth, hact, errOf, stateOf, upd_same]
  · simp [cancelMarketN, hex, hnc, hno]
  · simp [cancelMarket, hno]

/-- Witness for C5 (amended) on `demoActive`: the creator (2) succeeds in
the native variant, a stranger (7) gets `NotAuthorized`, and the creator
fails the ERC20 owner gate. -/
theorem claim_c5_cancel_authorization_witness :
    ((demoActive.markets 1).marketId ≠ 0 ∧
     (demoActive.markets 1).status = MarketStatus.ACTIVE) ∧
    (errOf (cancelMarketN 2 1 demoActive) = none ∧
     ((stateOf (cancelMarketN 2 1 demoActive) demoActive).markets 1).status =
       MarketStatus.CANCELLED) ∧
    cancelMarketN 7 1 demoActive = .error .NotAuthorized ∧
    cancelMarket 2 1 demoActive = .error .NotOwner :=
  ⟨⟨by decide, by decide⟩,
   (claim_c5_cancel_authorization demoActive 2 1 (by decide) (by decide)).1
     (Or.inl (by decide)),
   (claim_c5_cancel_authorization demoActive 7 1 (by decide) (by decide)).2.1
     (by decide) (by decide),
   (claim_c5_cancel_authorization demoActive 2 1 (by decide) (by decide)).2.2
     (by decide)⟩

/-! ## C6: setResolver and the zero address -/

/-- C6 counterexample: the ERC20 `setResolver` has no zero-address
validation — the owner's call with the null identity succeeds and records
the zero address as an authorized resolver instead of failing with
`InvalidResolverAddress`. -/
theorem claim_c6_cex :
    errOf (setResolver 1 0 true (initState 1)) = none ∧
    (stateOf (setResolver 1 0 true (initState 1)) (initState 1)).authorizedResolvers 0
      = true := by
  refine ⟨by decide, by decide⟩

/-- C6 (amended): the claimed behaviour is that of the native-currency
variant (`setResolverN`): owner calls fail with `InvalidResolverAddress` on
the null identity and otherwise set the authorized flag.  The ERC20 variant
(`setResolver`) performs no zero-address check and sets the flag for any
address, the null identity included. -/
theorem claim_c6_set_resolver (s : State) (sender addr : Nat) (b : Bool)
    (hown : sender = s.owner) :
    (addr = 0 → setResolverN sender addr b s = .error .InvalidResolverAddress) ∧
    (addr ≠ 0 → errOf (setResolverN sender addr b s) = none ∧
      (stateOf (setResolverN sender addr b s) s).authorizedResolvers addr = b) ∧
    (errOf (setResolver sender addr b s) = none ∧
      (stateOf (setResolver sender addr b s) s).authorizedResolvers addr = b) := by
  subst hown
  refine ⟨fun h0 => ?_, fun h0 => ?_, ?_⟩
  · simp [setResolverN, h0]
  · simp [setResolverN, h0, errOf, stateOf, upd_same]
  · simp [setResolver, errOf, stateOf, upd_same]

/-- Witness for C6 (amended) on a fresh deployment by address 1. -/
theorem claim_c6_set_resolver_witness :
    (1 = (initState 1).owner) ∧
    setResolverN 1 0 true (initState 1) = .error .InvalidResolverAddress ∧
    (errOf (setResolverN 1 5 true (initState 1)) = none ∧
     (stateOf (setResolverN 1 5 true (initState 1)) (initState 1)).authorizedResolvers 5
       = true) ∧
    (errOf (setResolver 1 9 true (initState 1)) = none ∧
     (stateOf (setResolver 1 9 true (initState 1)) (initState 1)).authorizedResolvers 9
       = true) :=
  ⟨by decide,
   (claim_c6_set_resolver (initState 1) 1 0 true (by decide)).1 (by decide),
   (claim_c6_set_resolver (initState 1) 1 5 true (by decide)).2.1 (by decide),
   (claim_c6_set_resolver (initState 1) 1 9 true (by decide)).2.2⟩

/-! ## C2 and C4: pool conservation and the status machine -/

theorem exec_claimWinnings_markets {sender mId : Nat} {s s' : State}
    (h : exec (Op.claimWinnings sender mId) s = .ok s') :
    s'.markets = s.markets := by
  simp only [exec] at h
  cases hc : claimWinnings sender mId s with
  | error e => rw [hc] at h; cases h
  | ok p =>
    rw [hc] at h
    cases h
    obtain ⟨t, w⟩ := p
    obtain ⟨_, _, _, _, bets', tf, _, rfl⟩ := claimWinnings_ok hc
    rfl

theorem exec_refundBets_markets {sender mId : Nat} {s s' : State}
    (h : exec (Op.refundBets sender mId) s = .ok s') :
    s'.markets = s.markets := by
  simp only [exec] at h
  cases hc : refundBets sender mId s with
  | error e => rw [hc] at h; cases h
  | ok p =>
    rw [hc] at h
    cases h
    obtain ⟨t, r⟩ := p
    obtain ⟨_, _, _, _, bets', _, rfl⟩ := refundBets_ok hc
    rfl

/-- C2: in every reachable state, every market satisfies
`totalPool = optionPools[0] + optionPools[1]`, and no successful transaction
ever decreases any market's `totalPool` (in particular it is non-decreasing
while the market is still ACTIVE). -/
theorem claim_c2_pool_conservation {s : State} (hs : Reachable s) :
    (∀ m, (s.markets m).totalPool =
      (s.markets m).optionPools.1 + (s.markets m).optionPools.2) ∧
    (∀ op s', exec op s = .ok s' → ∀ m,
      (s.markets m).totalPool ≤ (s'.markets m).totalPool) := by
  have hInv := reachable_inv hs
  refine ⟨hInv.pools_sum, ?_⟩
  intro op s' h m
  cases op with
  | createMarket sender now mId mty q rt ds th tht =>
    obtain ⟨hid0, _, _, rfl⟩ := createMarket_ok h
    by_cases hm : m = mId
    · subst hm
      have h0 := (hInv.fresh_empty m hid0).2.1
      simp [upd_same, h0]
    · simp [upd_apply, if_neg hm]
  | placeBet sender now mId opt amt =>
    obtain ⟨_, _, _, _, _, rfl⟩ := placeBet_ok h
    by_cases hm : m = mId
    · subst hm; simp [upd_same]
    · simp [upd_apply, if_neg hm]
  | resolveMarket sender now mId wOpt =>
    obtain ⟨_, _, _, _, _, rfl⟩ := resolveMarket_ok h
    by_cases hm : m = mId
    · subst hm; simp [upd_same]
    · simp [upd_apply, if_neg hm]
  | cancelMarket sender mId =>
    obtain ⟨_, _, _, rfl⟩ := cancelMarket_ok h
    by_cases hm : m = mId
    · subst hm; simp [upd_same]
    · simp [upd_apply, if_neg hm]
  | claimWinnings sender mId => rw [exec_claimWinnings_markets h]
  | refundBets sender mId => rw [exec_refundBets_markets h]
  | withdrawFees sender =>
    obtain ⟨_, _, rfl⟩ := withdrawFees_ok h; exact le_refl _
  | setPlatformFee sender fee =>
    obtain ⟨_, _, rfl⟩ := setPlatformFee_ok h; exact le_refl _
  | setBetLimits sender mn mx =>
    obtain ⟨_, _, rfl⟩ := setBetLimits_ok h; exact le_refl _
  | setResolver sender addr b =>
    obtain ⟨_, rfl⟩ := setResolver_ok h; exact le_refl _

/-- Witness for C2 on the concrete reachable state `demoState`. -/
theorem claim_c2_pool_conservation_witness :
    (∀ m, (demoState.markets m).totalPool =
      (demoState.markets m).optionPools.1 +
      (demoState.markets m).optionPools.2) ∧
    (∀ op s', exec op demoState = .ok s' → ∀ m,
      (demoState.markets m).totalPool ≤ (s'.markets m).totalPool) :=
  claim_c2_pool_conservation ⟨1, demoOps, rfl⟩

/-- `op` is a `resolveMarket` transaction. -/
def isResolveOp : Op → Bool
  | .resolveMarket _ _ _ _ => true
  | _ => false

/-- `op` is a `cancelMarket` transaction. -/
def isCancelOp : Op → Bool
  | .cancelMarket _ _ => true
  | _ => false

/-- C4: no reachable state has a LOCKED market, and a successful transaction
either leaves a market's status unchanged or moves it from ACTIVE to
RESOLVED (a `resolveMarket` call) or from ACTIVE to CANCELLED (a
`cancelMarket` call); in particular RESOLVED and CANCELLED are terminal. -/
theorem claim_c4_status_machine {s : State} (hs : Reachable s) :
    (∀ m, (s.markets m).status ≠ MarketStatus.LOCKED) ∧
    (∀ op s', exec op s = .ok s' → ∀ m,
      (s'.markets m).status = (s.markets m).status ∨
      ((s.markets m).status = MarketStatus.ACTIVE ∧
        (((s'.markets m).status = MarketStatus.RESOLVED ∧ isResolveOp op = true) ∨
         ((s'.markets m).status = MarketStatus.CANCELLED ∧ isCancelOp op = true)))) := by
  have hInv := reachable_inv hs
  refine ⟨hInv.no_locked, ?_⟩
  intro op s' h m
  cases op with
  | createMarket sender now mId mty q rt ds th tht =>
    obtain ⟨hid0, _, _, rfl⟩ := createMarket_ok h
    by_cases hm : m = mId
    · subst hm
      left
      have hact := (hInv.fresh_empty m hid0).2.2.2
      simp [upd_same, hact]
    · left; simp [upd_apply, if_neg hm]
  | placeBet sender now mId opt amt =>
    obtain ⟨_, _, _, _, _, rfl⟩ := placeBet_ok h
    by_cases hm : m = mId
    · subst hm; left; simp [upd_same]
    · left; simp [upd_apply, if_neg hm]
  | resolveMarket sender now mId wOpt =>
    obtain ⟨_, _, hact, _, _, rfl⟩ := resolveMarket_ok h
    by_cases hm : m = mId
    · subst hm
      right
      exact ⟨hact, Or.inl ⟨by simp [upd_same], rfl⟩⟩
    · left; simp [upd_apply, if_neg hm]
  | cancelMarket sender mId =>
    obtain ⟨_, _, hact, rfl⟩ := cancelMarket_ok h
    by_cases hm : m = mId
    · subst hm
      right
      exact ⟨hact, Or.inr ⟨by simp [upd_same], rfl⟩⟩
    · left; simp [upd_apply, if_neg hm]
  | claimWinnings sender mId => left; rw [exec_claimWinnings_markets h]
  | refundBets sender mId => left; rw [exec_refundBets_markets h]
  | withdrawFees sender =>
    obtain ⟨_, _, rfl⟩ := withdrawFees_ok h; left; rfl
  | setPlatformFee sender fee =>
    obtain ⟨_, _, rfl⟩ := setPlatformFee_ok h; left; rfl
  | setBetLimits sender mn mx =>
    obtain ⟨_, _, rfl⟩ := setBetLimits_ok h; left; rfl
  | setResolver sender addr b =>
    obtain ⟨_, rfl⟩ := setResolver_ok h; left; rfl

/-- Witness for C4 on the concrete reachable state `demoState`. -/
theorem claim_c4_status_machine_witness :
    (∀ m, (demoState.markets m).status ≠ MarketStatus.LOCKED) ∧
    (∀ op s', exec op demoState = .ok s' → ∀ m,
      (s'.markets m).status = (demoState.markets m).status ∨
      ((demoState.markets m).status = MarketStatus.ACTIVE ∧
        (((s'.markets m).status = MarketStatus.RESOLVED ∧ isResolveOp op = true) ∨
         ((s'.markets m).status = MarketStatus.CANCELLED ∧ isCancelOp op = true)))) :=
  claim_c4_status_machine ⟨1, demoOps, rfl⟩

/-! ## C8: duplicate market creation -/

theorem marketId_frozen {op : Op} {s s' : State} (h : exec op s = .ok s')
    (m : Nat) (hnz : (s.markets m).marketId ≠ 0) :
    (s'.markets m).marketId = (s.markets m).marketId := by
  cases op with
  | createMarket sender now mId mty q rt ds th tht =>
    obtain ⟨hid0, _, _, rfl⟩ := createMarket_ok h
    by_cases hm : m = mId
    · subst hm; exact absurd hid0 hnz
    · simp [upd_apply, if_neg hm]
  | placeBet sender now mId opt amt =>
    obtain ⟨_, _, _, _, _, rfl⟩ := placeBet_ok h
    by_cases hm : m = mId
    · subst hm; simp [upd_same]
    · simp [upd_apply, if_neg hm]
  | resolveMarket sender now mId wOpt =>
    obtain ⟨_, _, _, _, _, rfl⟩ := resolveMarket_ok h
    by_cases hm : m = mId
    · subst hm; simp [upd_same]
    · simp [upd_apply, if_neg hm]
  | cancelMarket sender mId =>
    obtain ⟨_, _, _, rfl⟩ := cancelMarket_ok h
    by_cases hm : m = mId
    · subst hm; simp [upd_same]
    · simp [upd_apply, if_neg hm]
  | claimWinnings sender mId => rw [exec_claimWinnings_markets h]
  | refundBets sender mId => rw [exec_refundBets_markets h]
  | withdrawFees sender => obtain ⟨_, _, rfl⟩ := withdrawFees_ok h; rfl
  | setPlatformFee sender fee => obtain ⟨_, _, rfl⟩ := setPlatformFee_ok h; rfl
  | setBetLimits sender mn mx => obtain ⟨_, _, rfl⟩ := setBetLimits_ok h; rfl
  | setResolver sender addr b => obtain ⟨_, rfl⟩ := setResolver_ok h; rfl

theorem marketId_frozen_list (ops : List Op) {s : State} (m : Nat)
    (hnz : (s.markets m).marketId ≠ 0) :
    ((execList ops s).markets m).marketId = (s.markets m).marketId := by
  induction ops generalizing s with
  | nil => rfl
  | cons op rest ih =>
    rw [execList, List.foldl_cons]
    show ((execList rest (applyOp op s)).markets m).marketId = _
    have hstep : ((applyOp op s).markets m).marketId = (s.markets m).marketId := by
      unfold applyOp
      cases h : exec op s with
      | ok s' => exact marketId_frozen h m hnz
      | error e => rfl
    rw [ih (by rw [hstep]; exact hnz), hstep]

/-- The market record created for the all-zero id: its stored `marketId`
field is `0`, indistinguishable from the never-created sentinel. -/
def demoZeroId : State :=
  execList [.createMarket 2 0 0 .BLOCK "a" 1 0 0 0] (initState 1)

/-- C8 counterexample: the id-0 market exists (created by address 2 with
question "a"), yet a second `createMarket` with the same (all-zero) id does
not fail with `DuplicateMarket` — it succeeds and overwrites the record
(creator becomes 3, question becomes "b"). -/
theorem claim_c8_cex :
    (demoZeroId.markets 0).creator = 2 ∧
    (demoZeroId.markets 0).question = "a" ∧
    errOf (createMarket 3 0 0 MarketType.BLOCK "b" 2 0 0 0 demoZeroId) = none ∧
    ((stateOf (createMarket 3 0 0 MarketType.BLOCK "b" 2 0 0 0 demoZeroId)
        demoZeroId).markets 0).creator = 3 ∧
    ((stateOf (createMarket 3 0 0 MarketType.BLOCK "b" 2 0 0 0 demoZeroId)
        demoZeroId).markets 0).question = "b" := by
  refine ⟨by decide, ?_, by decide, by decide, ?_⟩ <;> decide

/-- C8 (amended): after a successful `createMarket` with a NONZERO id, every
later `createMarket` with the same id — after any transaction sequence —
fails with `DuplicateMarket` and, the call reverting, leaves the storage
unchanged.  The all-zero id is the exception: its stored sentinel field
cannot record existence, so a duplicate creation with id 0 succeeds and
overwrites the record (a zero-id market also rejects every
`placeBet`/`resolveMarket`/`cancelMarket`, so it never holds stakes). -/
theorem claim_c8_duplicate_market {sender now mId : Nat} {mty : MarketType}
    {q : String} {rt ds th tht : Nat} {s s₁ : State}
    (h : createMarket sender now mId mty q rt ds th tht s = .ok s₁)
    (hnz : mId ≠ 0) (ops : List Op) (sender₂ now₂ : Nat) (mty₂ : MarketType)
    (q₂ : String) (rt₂ ds₂ th₂ tht₂ : Nat) :
    createMarket sender₂ now₂ mId mty₂ q₂ rt₂ ds₂ th₂ tht₂ (execList ops s₁) =
      .error .DuplicateMarket ∧
    applyOp (Op.createMarket sender₂ now₂ mId mty₂ q₂ rt₂ ds₂ th₂ tht₂)
      (execList ops s₁) = execList ops s₁ := by
  have hfields := createMarket_ok h
  have hmid : (s₁.markets mId).marketId = mId := by
    rw [hfields.2.2.2]; simp [upd_same]
  have h1 : ((execList ops s₁).markets mId).marketId = mId := by
    rw [marketId_frozen_list ops mId (by rw [hmid]; exact hnz), hmid]
  have herr : createMarket sender₂ now₂ mId mty₂ q₂ rt₂ ds₂ th₂ tht₂
      (execList ops s₁) = Except.error Err.DuplicateMarket := by
    simp only [createMarket]
    rw [if_pos (by rw [h1]; exact hnz)]
  exact ⟨herr, by simp [applyOp, exec, herr]⟩

/-- Witness for C8 (amended): create market 1, then a duplicate create
fails with `DuplicateMarket` and leaves the state unchanged. -/
theorem claim_c8_duplicate_market_witness :
    (createMarket 2 0 1 MarketType.BLOCK "q" 5 0 0 0 (initState 1) =
       .ok demoActive ∧ (1 : Nat) ≠ 0) ∧
    (createMarket 9 0 1 MarketType.GAME "z" 7 0 0 0 (execList [] demoActive) =
       .error .DuplicateMarket ∧
     applyOp (Op.createMarket 9 0 1 MarketType.GAME "z" 7 0 0 0)
       (execList [] demoActive) = execList [] demoActive) :=
  ⟨⟨rfl, by decide⟩,
   claim_c8_duplicate_market
     (show createMarket 2 0 1 MarketType.BLOCK "q" 5 0 0 0 (initState 1) =
       .ok demoActive from rfl)
     (by decide) [] 9 0 MarketType.GAME "z" 7 0 0 0⟩

/-! ## C3: a bet is paid at most once -/

/-- C3: a successful `claimWinnings` marks every eligible bet claimed, so an
immediate second call by the same bettor on the same market finds nothing
unclaimed and reverts with `NoWinningsToClaim`, leaving the storage
unchanged; likewise a second `refundBets` reverts with
`NoRefundsAvailable`.  (The loops skip any bet whose `claimed` flag is
already set, and the revert semantics of `applyOp` keeps the pre-call
state.) -/
theorem claim_c3_no_double_claim (s : State) (a m : Nat) :
    (∀ s' w, claimWinnings a m s = .ok (s', w) →
      claimWinnings a m s' = .error .NoWinningsToClaim ∧
      applyOp (Op.claimWinnings a m) s' = s') ∧
    (∀ s' r, refundBets a m s = .ok (s', r) →
      refundBets a m s' = .error .NoRefundsAvailable ∧
      applyOp (Op.refundBets a m) s' = s') := by
  constructor
  · intro s' w h
    obtain ⟨hex, hres, hne, hw, bets', tf, hloop, rfl⟩ := claimWinnings_ok h
    have hinel := claimLoopE_ok_ineligible hloop
    have herr : claimWinnings a m
        { s with marketBets := upd s.marketBets m bets'
                 collectedFees := s.collectedFees + tf } =
        Except.error Err.NoWinningsToClaim := by
      simp only [claimWinnings, upd_same]
      rw [if_neg hex, if_neg (by simp [hres]), if_neg hne,
        claimLoopE_ineligible hinel]
      rfl
    exact ⟨herr, by simp only [applyOp, exec, herr]; rfl⟩
  · intro s' r h
    obtain ⟨hex, hcan, hne, hr, bets', hloop, rfl⟩ := refundBets_ok h
    have hcl := refundLoopE_ok_claimed hloop
    have herr : refundBets a m
        { s with marketBets := upd s.marketBets m bets' } =
        Except.error Err.NoRefundsAvailable := by
      simp only [refundBets, upd_same]
      rw [if_neg hex, if_neg (by simp [hcan]), if_neg hne,
        refundLoopE_allClaimed hcl]
      rfl
    exact ⟨herr, by simp only [applyOp, exec, herr]; rfl⟩

/-- Witness for C3 on `demoState`: bettor 3 claims 3 from resolved market 1
and a second claim reverts; bettor 5 is refunded 2 from cancelled market 2
and a second refund reverts. -/
theorem claim_c3_no_double_claim_witness :
    (claimWinnings 3 1 demoState =
       .ok (applyOp (Op.claimWinnings 3 1) demoState, 3) ∧
     claimWinnings 3 1 (applyOp (Op.claimWinnings 3 1) demoState) =
       .error .NoWinningsToClaim) ∧
    (refundBets 5 2 demoState =
       .ok (applyOp (Op.refundBets 5 2) demoState, 2) ∧
     refundBets 5 2 (applyOp (Op.refundBets 5 2) demoState) =
       .error .NoRefundsAvailable) :=
  ⟨⟨rfl,
    ((claim_c3_no_double_claim demoState 3 1).1
      (applyOp (Op.claimWinnings 3 1) demoState) 3
      (show claimWinnings 3 1 demoState =
        .ok (applyOp (Op.claimWinnings 3 1) demoState, 3) from rfl)).1⟩,
   ⟨rfl,
    ((claim_c3_no_double_claim demoState 5 2).2
      (applyOp (Op.refundBets 5 2) demoState) 2
      (show refundBets 5 2 demoState =
        .ok (applyOp (Op.refundBets 5 2) demoState, 2) from rfl)).1⟩⟩

/-! ## C1: the claim payout formula -/

theorem feeOf_le_profit (p f : Nat) (hf : f ≤ BASIS_POINTS) : feeOf p f ≤ p := by
  unfold feeOf
  calc p * f / BASIS_POINTS ≤ p * BASIS_POINTS / BASIS_POINTS :=
        Nat.div_le_div_right (Nat.mul_le_mul_left p hf)
    _ = p := Nat.mul_div_cancel p (by unfold BASIS_POINTS; omega)

theorem payoutE_ge_principal (a L W f : Nat) (hf : f ≤ BASIS_POINTS) :
    a ≤ payoutE a L W f := by
  unfold payoutE
  have := feeOf_le_profit (shareE a L W) f hf
  omega

theorem payoutE_losing_zero (a W f : Nat) : payoutE a 0 W f = a := by
  unfold payoutE shareE feeOf
  simp

/-- The settlement algorithm of spec §4.3, phrased over the ledger state:
walk the caller's bet indices, pay each unclaimed bet on the winning option
`bet.amount + share - fee` (`claimTotals` of `payoutE`), mark them claimed
(`markClaimed`), fail with `NoBetsFound`/`NoWinningsToClaim` on the two
empty outcomes. -/
def claimSpec (s : State) (m a : Nat) : Except Err (State × Nat) :=
  let wOpt := (s.markets m).winningOption
  let W := poolOf (s.markets m).optionPools wOpt
  let L := poolOf (s.markets m).optionPools (if wOpt = 0 then 1 else 0)
  let idxs := s.userBetIndices m a
  let t := claimTotals wOpt W L s.platformFee (s.marketBets m) idxs
  if idxs = [] then .error .NoBetsFound
  else if t.1 = 0 then .error .NoWinningsToClaim
  else .ok ({ s with
      marketBets := upd s.marketBets m (markClaimed wOpt idxs (s.marketBets m))
      collectedFees := s.collectedFees + t.2 }, t.1)

/-- C1: on a reachable state with a RESOLVED market whose winning pool is
positive, `claimWinnings` computes exactly the spec's settlement: the total
paid is the sum over the caller's unclaimed winning bets of
`payoutE amount L W fee = amount + floor(amount*L/W)
- floor(floor(amount*L/W)*fee/10000)`; moreover the per-bet payout is the
bare principal when the losing pool is zero, and never falls below the
principal (the fee, at most 1000 bps here, taxes only the profit). -/
theorem claim_c1_payout_formula {s : State} (hs : Reachable s) (a m : Nat)
    (hres : (s.markets m).status = MarketStatus.RESOLVED)
    (hW : 0 < poolOf (s.markets m).optionPools (s.markets m).winningOption) :
    claimWinnings a m s = claimSpec s m a ∧
    (∀ amt W f, payoutE amt 0 W f = amt) ∧
    (∀ amt L W, amt ≤ payoutE amt L W s.platformFee) := by
  have hInv := reachable_inv hs
  refine ⟨?_, fun amt W f => payoutE_losing_zero amt W f,
    fun amt L W => payoutE_ge_principal amt L W s.platformFee
      (le_trans hInv.fee_le (by unfold BASIS_POINTS; omega))⟩
  have hex : (s.markets m).marketId ≠ 0 := by
    intro h0
    have := (hInv.fresh_empty m h0).2.2.2
    rw [this] at hres
    cases hres
  simp only [claimWinnings, claimSpec]
  rw [if_neg hex, if_neg (by simp [hres])]
  by_cases hidx : s.userBetIndices m a = []
  · rw [if_pos hidx, if_pos hidx]
  · rw [if_neg hidx, if_neg hidx,
      claimLoopE_characterize (hInv.idx_nodup m a) (hInv.idx_bound m a) hW]
    by_cases hT : (claimTotals (s.markets m).winningOption
        (poolOf (s.markets m).optionPools (s.markets m).winningOption)
        (poolOf (s.markets m).optionPools
          (if (s.markets m).winningOption = 0 then 1 else 0))
        s.platformFee (s.marketBets m) (s.userBetIndices m a)).1 = 0
    · simp [hT]
    · simp [hT]

/-- Witness for C1 on `demoState`, market 1, bettor 3 (who staked 2 on the
winning option against a losing pool of 1 at 200 bps fee). -/
theorem claim_c1_payout_formula_witness :
    ((demoState.markets 1).status = MarketStatus.RESOLVED ∧
     0 < poolOf (demoState.markets 1).optionPools
           (demoState.markets 1).winningOption) ∧
    claimWinnings 3 1 demoState = claimSpec demoState 1 3 ∧
    claimSpec demoState 1 3 =
      .ok (applyOp (Op.claimWinnings 3 1) demoState, 3) ∧
    payoutE 2 1 2 200 = 3 :=
  ⟨⟨by decide, by decide⟩,
   (claim_c1_payout_formula ⟨1, demoOps, rfl⟩ 3 1 (by decide) (by decide)).1,
   rfl, by decide⟩

/-! ## C10: the claim division never divides by zero -/

/-- C10: in a reachable state in which every recorded bet has a positive
amount (as when `minBetAmount > 0` held at each `placeBet`), `claimWinnings`
never hits the Solidity division-by-zero (or array) panic: the division by
`winningPool` is reached only for a bet on the winning option, that bet's
amount is a summand of `optionPools[winningOption]`, and hence the winning
pool is positive whenever any bet on the winning option exists — which is
also why the native variant's explicit `winningPool > 0` guard is redundant
under this precondition. -/
theorem claim_c10_no_division_by_zero {s : State} (hs : Reachable s)
    (hpos : ∀ m, ∀ b ∈ s.marketBets m, 0 < b.amount) :
    (∀ a m, claimWinnings a m s ≠ .error .Panic) ∧
    (∀ m b, b ∈ s.marketBets m →
      b.option = (s.markets m).winningOption →
      0 < poolOf (s.markets m).optionPools (s.markets m).winningOption) := by
  have hInv := reachable_inv hs
  have key : ∀ m b, b ∈ s.marketBets m →
      b.option = (s.markets m).winningOption →
      0 < poolOf (s.markets m).optionPools (s.markets m).winningOption := by
    intro m b hb hopt
    have hw := hInv.wopt_le m
    have htr := hInv.pools_track m
    have hbpos := hpos m b hb
    unfold poolOf
    by_cases h0 : (s.markets m).winningOption = 0
    · rw [if_pos h0, htr.1]
      have := sumOption_ge_of_mem hb (by rw [hopt, h0])
      omega
    · rw [if_neg h0, htr.2]
      have h1 : (s.markets m).winningOption = 1 := by omega
      have := sumOption_ge_of_mem hb (by rw [hopt, h1])
      omega
  refine ⟨?_, key⟩
  intro a m
  simp only [claimWinnings]
  by_cases hex : (s.markets m).marketId = 0
  · rw [if_pos hex]; simp
  rw [if_neg hex]
  by_cases hr2 : (s.markets m).status ≠ MarketStatus.RESOLVED
  · rw [if_pos hr2]; simp
  rw [if_neg hr2]
  by_cases hi : s.userBetIndices m a = []
  · rw [if_pos hi]; simp
  rw [if_neg hi]
  by_cases hW : 0 < poolOf (s.markets m).optionPools (s.markets m).winningOption
  · rw [claimLoopE_characterize (hInv.idx_nodup m a) (hInv.idx_bound m a) hW]
    by_cases hT : (claimTotals (s.markets m).winningOption
        (poolOf (s.markets m).optionPools (s.markets m).winningOption)
        (poolOf (s.markets m).optionPools
          (if (s.markets m).winningOption = 0 then 1 else 0))
        s.platformFee (s.marketBets m) (s.userBetIndices m a)).1 = 0
    · simp [hT]
    · simp [hT]
  · have hnone : ∀ i ∈ s.userBetIndices m a,
        ∃ b, (s.marketBets m)[i]? = some b ∧
          (b.claimed = true ∨ b.option ≠ (s.markets m).winningOption) := by
      intro i hi2
      have hlt := hInv.idx_bound m a i hi2
      refine ⟨(s.marketBets m)[i], List.getElem?_eq_getElem hlt,
        Or.inr fun heq => ?_⟩
      have hmem : (s.marketBets m)[i] ∈ s.marketBets m := List.getElem_mem hlt
      exact hW (key m _ hmem heq)
    rw [claimLoopE_ineligible hnone]
    simp

/-- Witness for C10 on `demoState` (all three recorded bets have positive
amounts). -/
theorem claim_c10_no_division_by_zero_witness :
    (∀ m, ∀ b ∈ demoState.marketBets m, 0 < b.amount) ∧
    (∀ a m, claimWinnings a m demoState ≠ .error .Panic) ∧
    (∀ m b, b ∈ demoState.marketBets m →
      b.option = (demoState.markets m).winningOption →
      0 < poolOf (demoState.markets m).optionPools
            (demoState.markets m).winningOption) := by
  have hpos : ∀ m, ∀ b ∈ demoState.marketBets m, 0 < b.amount := by
    have hb : demoState.marketBets =
        upd (upd (upd (fun _ => ([] : List Bet)) 1 [⟨3, 1, 0, 2, 0, false⟩]) 1
          [⟨3, 1, 0, 2, 0, false⟩, ⟨4, 1, 1, 1, 0, false⟩]) 2
          [⟨5, 2, 0, 2, 0, false⟩] := rfl
    rw [hb]
    intro m b hbm
    simp only [upd] at hbm
    split_ifs at hbm
    · simp at hbm; subst hbm; decide
    · simp at hbm; rcases hbm with rfl | rfl <;> decide
    · simp at hbm
  have h := claim_c10_no_division_by_zero ⟨1, demoOps, rfl⟩ hpos
  exact ⟨hpos, h.1, h.2⟩
